import Mathlib

/-!
Verification of the pdftool repository: a shallow embedding of the
page-range parser, the HTTP endpoints (`/merge`, `/delete-pages`,
`/page-count/{filename}`) and the CLI commands (`merge`, `delete`, `info`,
interactive delete), together with proofs of the specified properties.

Strings are modelled through their character lists (`String.data`).
Python's `str.split`, `str.strip`, `int()`, `str.lower()` and
`str.endswith` are re-implemented on `List Char`; PDF documents are opaque
ordered page lists (`List α`); a file's bytes are modelled as
`Option (List α)` (`none` = bytes the PDF library fails to decode).
-/

/-! ## Python string primitives -/

/-- Models Python `str.strip()`: drop whitespace from both ends.
(Lean's `Char.isWhitespace` covers the ASCII whitespace relevant here.) -/
def stripChars (cs : List Char) : List Char :=
  ((cs.dropWhile Char.isWhitespace).reverse.dropWhile Char.isWhitespace).reverse

/-- Models Python `str.split(sep)` for a one-character separator:
split on every occurrence, keeping empty fragments (` "".split(',') = ['']`). -/
def splitOnChar (sep : Char) : List Char → List (List Char)
  | [] => [[]]
  | c :: rest =>
    let r := splitOnChar sep rest
    if c = sep then [] :: r
    else
      match r with
      | t :: ts => (c :: t) :: ts
      | [] => [[c]]

/-- Value of a decimal digit string, most significant digit first
(the accumulator fold used by string-to-number conversion). -/
def digitsToNat (cs : List Char) : Nat :=
  cs.foldl (fun n c => 10 * n + (c.toNat - 48)) 0

/-- Models Python `int(s)` for the token shapes reachable in this program
(tokens containing `-` take the range branch, so a sign can only be `+`):
surrounding whitespace is stripped, an optional `+` sign is accepted,
then one or more decimal digits. (PEP-515 underscores and non-ASCII
digits are not modelled.) Returns `none` where `int()` raises `ValueError`. -/
def pyIntNat (cs : List Char) : Option Nat :=
  let t := stripChars cs
  let u := if t.head? = some '+' then t.tail else t
  if !u.isEmpty && u.all Char.isDigit then some (digitsToNat u) else none

/-! ## The page-range parser

Embeds the loop shared by `backend/main.py:delete_pages` (lines 79-86) and
`cli/pdf_tool.py:PDFTool.delete_pages` (lines 94-101):

    page_numbers = set()
    for part in pages.split(','):
        part = part.strip()
        if '-' in part:
            start, end = map(int, part.split('-'))
            page_numbers.update(range(start, end + 1))
        else:
            page_numbers.add(int(part))

`none` models the `ValueError` escaping this loop. -/

/-- One token of the spec: strip, branch on containing `-`; a range token
must split into exactly two halves (otherwise tuple unpacking raises) and
contributes `range(start, end + 1)`; a plain token contributes a singleton. -/
def parsePart (cs : List Char) : Option (Finset Nat) :=
  let p := stripChars cs
  if p.contains '-' then
    match splitOnChar '-' p with
    | [a, b] =>
      match pyIntNat a, pyIntNat b with
      | some s, some e => some (Finset.Ico s (e + 1))
      | _, _ => none
    | _ => none
  else
    (pyIntNat p).map (fun n => {n})

/-- Folds the tokens into one set, unioning each contribution;
the first failing token aborts the whole parse. -/
def parseParts : List (List Char) → Finset Nat → Option (Finset Nat)
  | [], acc => some acc
  | p :: rest, acc =>
    match parsePart p with
    | some s => parseParts rest (acc ∪ s)
    | none => none

/-- Parse a full page-spec string: split on `,` and fold the tokens. -/
def parsePages (pages : String) : Option (Finset Nat) :=
  parseParts (splitOnChar ',' pages.data) ∅

/-! ## Filename suffix checks -/

/-- The characters of the required suffix `".pdf"`. -/
def pdfSuffixChars : List Char := ['.', 'p', 'd', 'f']

/-- Models `name.lower().endswith('.pdf')`, the check used by `/merge`,
`/delete-pages` and every CLI command. (`Char.toLower` lowercases ASCII,
which is all these checks need.) -/
def lowerEndsWithPdf (s : String) : Bool :=
  pdfSuffixChars.isSuffixOf (s.data.map Char.toLower)

/-- Models `filename.endswith('.pdf')`, the case-sensitive check used only
by `GET /page-count/{filename}` (`backend/main.py` line 108). -/
def csEndsWithPdf (s : String) : Bool :=
  pdfSuffixChars.isSuffixOf s.data

/-! ## HTTP surface (`backend/main.py`)

An uploaded file is its (multipart) filename plus the document its bytes
decode to; `content = none` models bytes on which `PdfReader` raises. -/

/-- An uploaded multipart file, as the endpoint sees it. -/
structure UploadFile (α : Type) where
  filename : String
  content : Option (List α)
deriving Repr, DecidableEq

/-- Structured error details standing for the literal message strings of
`backend/main.py` (one constructor per distinct message). -/
inductive Detail where
  /-- "At least 2 PDF files are required" -/
  | atLeastTwoFilesRequired
  /-- f"File (filename) is not a PDF" - the merge-loop message naming the file -/
  | fileIsNotAPdf (filename : String)
  /-- "File must be a PDF" - the delete-pages filename check -/
  | fileMustBeAPdf
  /-- "Pages parameter is required" -/
  | pagesParameterRequired
  /-- "Invalid page range format" -/
  | invalidPageRangeFormat
  /-- "File is not a PDF" - the page-count filename check -/
  | fileIsNotAPdfCS
  /-- "File not found" -/
  | fileNotFound
  /-- str(e) for an exception raised by the PDF library (text not modelled) -/
  | processingError
  /-- str(e) where e is a caught HTTPException re-raised by the blanket
  `except Exception` handler -/
  | wrappedException (inner : Detail)
  /-- the framework's default body for an exception no handler catches -/
  | unhandledServerError
deriving Repr, DecidableEq

/-- An HTTP error response: status code plus detail message. -/
structure HttpError where
  status : Nat
  detail : Detail
deriving Repr, DecidableEq

/-- The merge loop (`backend/main.py` lines 54-60), also recording which
files' bytes get read (`await file.read()`).  A filename failing the
suffix check raises `HTTPException(400, ...)` inside the `try` block, and
`HTTPException` subclasses `Exception`, so the blanket
`except Exception` handler (lines 69-70) catches it and re-raises it as a
500 whose detail is the stringified inner error; a decode failure
likewise becomes a 500.  The loop aborts at the first failure. -/
def mergeLoop {α : Type} : List (UploadFile α) → List α → List String →
    Except HttpError (List α) × List String
  | [], acc, reads => (.ok acc, reads)
  | f :: rest, acc, reads =>
    if lowerEndsWithPdf f.filename then
      match f.content with
      | some pages => mergeLoop rest (acc ++ pages) (reads ++ [f.filename])
      | none => (.error ⟨500, .processingError⟩, reads ++ [f.filename])
    else
      (.error ⟨500, .wrappedException (.fileIsNotAPdf f.filename)⟩, reads)

/-- `POST /merge`: fewer than two files is a 400 (checked before the
`try` block), otherwise the merge loop runs.  Returns the endpoint result
together with the list of files whose bytes were read. -/
def httpMerge {α : Type} (files : List (UploadFile α)) :
    Except HttpError (List α) × List String :=
  if files.length < 2 then (.error ⟨400, .atLeastTwoFilesRequired⟩, [])
  else mergeLoop files [] []

/-- The page-keeping loop shared by both delete-pages implementations:
keep, in order, the pages whose 1-based position is not in the parsed set

    for i in range(len(pdf.pages)):
        if i + 1 not in page_numbers:
            writer.add_page(pdf.pages[i])
-/
def keptPages {α : Type} (doc : List α) (s : Finset Nat) : List α :=
  (doc.enum.filter (fun p => !(decide (p.1 + 1 ∈ s)))).map Prod.snd

/-- `POST /delete-pages` (`backend/main.py` lines 72-104): filename check,
then the empty-spec check, then (inside the `try`) parsing - a
`ValueError` becomes 400 "Invalid page range format" - then decoding the
uploaded bytes (failure: 500), then the page-keeping loop. -/
def httpDeletePages {α : Type} (f : UploadFile α) (pages : String) :
    Except HttpError (List α) :=
  if lowerEndsWithPdf f.filename = false then .error ⟨400, .fileMustBeAPdf⟩
  else if pages = "" then .error ⟨400, .pagesParameterRequired⟩
  else
    match parsePages pages with
    | none => .error ⟨400, .invalidPageRangeFormat⟩
    | some s =>
      match f.content with
      | none => .error ⟨500, .processingError⟩
      | some doc => .ok (keptPages doc s)

/-- `GET /page-count/(filename)` (`backend/main.py` lines 106-114): a
case-sensitive suffix check (400), then scratch-directory existence
(404), then the page count; `PdfReader` runs outside any `try`, so a
decode failure propagates to the framework as a plain 500. -/
def httpPageCount {α : Type} (filename : String) (existsInTemp : Bool)
    (content : Option (List α)) : Except HttpError Nat :=
  if csEndsWithPdf filename = false then .error ⟨400, .fileIsNotAPdfCS⟩
  else if existsInTemp = false then .error ⟨404, .fileNotFound⟩
  else
    match content with
    | none => .error ⟨500, .unhandledServerError⟩
    | some doc => .ok doc.length

/-! ## CLI surface (`cli/pdf_tool.py`) -/

/-- A path handed to the CLI: whether `os.path.exists` holds, and the
document its bytes decode to (`none` = `PdfReader` raises on it). -/
structure CliFile (α : Type) where
  path : String
  existsOnDisk : Bool
  content : Option (List α)
deriving Repr, DecidableEq

/-- Structured stand-ins for the CLI exception messages. -/
inductive CliError where
  /-- "At least 2 PDF files are required for merging" -/
  | atLeastTwoRequired
  /-- f"File not found: (path)" -/
  | fileNotFound (path : String)
  /-- f"File is not a PDF: (path)" -/
  | notAPdf (path : String)
  /-- f"Invalid page numbers: (invalid). Pages must be between 1 and (total)" -/
  | invalidPageNumbers (invalid : List Nat) (total : Nat)
  /-- the ValueError escaping the page-spec parsing loop -/
  | parseFailure
  /-- an exception raised by the PDF library -/
  | processingError
  /-- `Exception(f"Error ...: (str(e))")` - the catch-all re-wrap inside
  `merge_pdfs` / `delete_pages` -/
  | wrapped (inner : CliError)
deriving Repr, DecidableEq

/-- The pre-`try` validation loop of `PDFTool.merge_pdfs` (lines 35-39):
for each input in order, existence first, then the suffix check;
the first offender raises. -/
def validateMergeInputs {α : Type} : List (CliFile α) → Option CliError
  | [] => none
  | f :: rest =>
    if f.existsOnDisk = false then some (.fileNotFound f.path)
    else if lowerEndsWithPdf f.path = false then some (.notAPdf f.path)
    else validateMergeInputs rest

/-- The reading/concatenation loop of `PDFTool.merge_pdfs` (lines 50-56):
append every page of every input in order; a decode failure is re-wrapped
by the `except Exception` clause (line 66-67). -/
def cliMergeRead {α : Type} : List (CliFile α) → List α → Except CliError (List α)
  | [], acc => .ok acc
  | f :: rest, acc =>
    match f.content with
    | none => .error (.wrapped .processingError)
    | some doc => cliMergeRead rest (acc ++ doc)

/-- `PDFTool.merge_pdfs` (lines 20-67): arity check, validation loop,
default output name `merged.pdf`, then read/concatenate/write.
Returns the output path and the merged document. -/
def cliMerge {α : Type} (files : List (CliFile α)) (out : Option String) :
    Except CliError (String × List α) :=
  if files.length < 2 then .error .atLeastTwoRequired
  else
    match validateMergeInputs files with
    | some e => .error e
    | none => (cliMergeRead files []).map (fun doc => (out.getD "merged.pdf", doc))

/-- Index of the last occurrence of `c` in `cs`, if any
(Python `str.rfind` restricted to single characters). -/
def lastIndexOf (c : Char) (cs : List Char) : Option Nat :=
  match (cs.reverse.findIdx? (· = c)) with
  | some j => some (cs.length - 1 - j)
  | none => none

/-- Models `os.path.splitext(p)[0]` for POSIX paths: cut at the last dot,
provided it lies inside the basename and the basename has a non-dot
character before it (so `.bashrc`-style names are left whole). -/
def splitextStem (p : String) : String :=
  let cs := p.data
  match lastIndexOf '.' cs with
  | none => p
  | some d =>
    let s := match lastIndexOf '/' cs with
      | none => 0
      | some si => si + 1
    if (match lastIndexOf '/' cs with
        | none => true
        | some si => decide (si < d))
        && ((cs.drop s).take (d - s)).any (fun ch => decide (ch ≠ '.')) then
      ⟨cs.take d⟩
    else p

/-- The default output path of the CLI delete command:
`(input-stem)_modified.pdf` (lines 88-90). -/
def cliDeleteOut (path : String) (out : Option String) : String :=
  out.getD (splitextStem path ++ "_modified.pdf")

/-- The out-of-range indices reported by the CLI delete validation
(line 114): the parsed indices below 1 or above the page total.  CPython
lists them in set-iteration order; the model lists them sorted. -/
def invalidList (s : Finset Nat) (total : Nat) : List Nat :=
  (s.filter (fun p => p < 1 ∨ total < p)).sort (· ≤ ·)

/-- `PDFTool.delete_pages` (lines 69-137): existence and suffix checks
(raised before the `try`, so unwrapped), then inside the `try` - whose
`except Exception` clause re-wraps everything it catches - the spec is
parsed, the input decoded, the out-of-range validation performed, and the
kept pages written to the output path. -/
def cliDeletePages {α : Type} (f : CliFile α) (pages : String)
    (out : Option String) : Except CliError (String × List α) :=
  if f.existsOnDisk = false then .error (.fileNotFound f.path)
  else if lowerEndsWithPdf f.path = false then .error (.notAPdf f.path)
  else
    match parsePages pages with
    | none => .error (.wrapped .parseFailure)
    | some s =>
      match f.content with
      | none => .error (.wrapped .processingError)
      | some doc =>
        if invalidList s doc.length = [] then
          .ok (cliDeleteOut f.path out, keptPages doc s)
        else
          .error (.wrapped (.invalidPageNumbers (invalidList s doc.length) doc.length))

/-- `PDFTool.get_page_count` (lines 139-149): existence check, suffix
check, decode, length; no `try`, so errors propagate unwrapped. -/
def cliPageCount {α : Type} (f : CliFile α) : Except CliError Nat :=
  if f.existsOnDisk = false then .error (.fileNotFound f.path)
  else if lowerEndsWithPdf f.path = false then .error (.notAPdf f.path)
  else
    match f.content with
    | none => .error .processingError
    | some doc => .ok doc.length

/-- Observable outcome of one CLI command dispatched by `main()`
(lines 326-344): the process exit code, the printed `Error:` line if any,
and the output files written. -/
structure CliRun (α : Type) where
  exitCode : Nat
  errorMsg : Option CliError
  written : List (String × List α)
deriving Repr, DecidableEq

/-- The `delete` subcommand end to end: `main()` catches any exception,
prints the `Error:` line and exits with code 1; on success exactly the
one complete output file has been written. -/
def cliDeleteCmd {α : Type} (f : CliFile α) (pages : String)
    (out : Option String) : CliRun α :=
  match cliDeletePages f pages out with
  | .ok (path, doc) => ⟨0, none, [(path, doc)]⟩
  | .error e => ⟨1, some e, []⟩

/-- The `merge` subcommand end to end, analogously. -/
def cliMergeCmd {α : Type} (files : List (CliFile α)) (out : Option String) :
    CliRun α :=
  match cliMerge files out with
  | .ok (path, doc) => ⟨0, none, [(path, doc)]⟩
  | .error e => ⟨1, some e, []⟩

/-! ## Interactive delete (`cli/pdf_tool.py:interactive_delete`) -/

/-- What one pass of the interactive page-prompt loop (lines 220-247)
does with the user's input. -/
inductive InteractiveAction where
  /-- the loop prints a message and prompts again; `delete_pages` is not
  invoked with this input -/
  | reprompt
  /-- the loop breaks and the parsed request proceeds to `delete_pages` -/
  | proceed (s : Finset Nat)
deriving DecidableEq

/-- One pass of the interactive page-prompt loop: the stripped input must
be non-empty and parse; then the guard `len(page_numbers) >= page_count`
(line 239) refuses the request, otherwise the loop breaks and the
request proceeds. -/
def interactiveDeleteStep (pageCount : Nat) (rawInput : String) :
    InteractiveAction :=
  let t : List Char := stripChars rawInput.data
  if t = [] then .reprompt
  else
    match parseParts (splitOnChar ',' t) ∅ with
    | none => .reprompt
    | some s => if pageCount ≤ s.card then .reprompt else .proceed s

/-- The deletion set `s` would remove every page of a `total`-page
document: every valid 1-based index is in `s`. -/
def RemovesEveryPage (s : Finset Nat) (total : Nat) : Prop :=
  Finset.Icc 1 total ⊆ s

/-! ## Well-formed spec tokens (for the claims quantifying over specs) -/

/-- Decimal rendering of a natural number, most significant digit first. -/
def natRender (n : Nat) : List Char :=
  if _h : n < 10 then [Nat.digitChar n]
  else natRender (n / 10) ++ [Nat.digitChar (n % 10)]
decreasing_by exact Nat.div_lt_self (by omega) (by omega)

/-- One comma-separated token of a well-formed page spec: a single
integer or a hyphenated range. -/
inductive SpecToken where
  | single (n : Nat)
  | range (a b : Nat)
deriving Repr, DecidableEq

/-- The token's text. -/
def SpecToken.render : SpecToken → List Char
  | .single n => natRender n
  | .range a b => natRender a ++ '-' :: natRender b

/-- The token's expected contribution: a single integer contributes
itself, a range `start-end` contributes every integer from `start` to
`end` inclusive. -/
def SpecToken.expand : SpecToken → Finset Nat
  | .single n => {n}
  | .range a b => Finset.Icc a b

/-- Validity per the spec grammar: positive integers, ranges with
`start <= end`. -/
def SpecToken.Valid : SpecToken → Prop
  | .single n => 1 ≤ n
  | .range a b => 1 ≤ a ∧ a ≤ b

/-- The expected expansion of a whole spec: the union of the tokens'
contributions. -/
def expandSpec (ts : List SpecToken) : Finset Nat :=
  ts.foldl (fun acc t => acc ∪ t.expand) ∅

/-- The ten decimal digit characters. -/
def decDigits : List Char := ['0', '1', '2', '3', '4', '5', '6', '7', '8', '9']

/-! ## Foundational lemmas: digits, rendering, stripping, splitting -/

lemma decDigits_facts :
    ∀ c ∈ decDigits, c.isDigit = true ∧ c.isWhitespace = false ∧
      c ≠ '-' ∧ c ≠ '+' ∧ c ≠ ',' := by decide

lemma digitChar_mem_decDigits {m : Nat} (h : m < 10) :
    Nat.digitChar m ∈ decDigits := by
  interval_cases m <;> decide

lemma digitChar_val {m : Nat} (h : m < 10) :
    (Nat.digitChar m).toNat - 48 = m := by
  interval_cases m <;> decide

lemma natRender_mem_decDigits (n : Nat) : ∀ c ∈ natRender n, c ∈ decDigits := by
  induction n using natRender.induct with
  | case1 n h =>
    intro c hc
    rw [natRender, dif_pos h] at hc
    simp only [List.mem_singleton] at hc
    exact hc ▸ digitChar_mem_decDigits h
  | case2 n h ih =>
    intro c hc
    rw [natRender, dif_neg h] at hc
    rcases List.mem_append.mp hc with h1 | h2
    · exact ih c h1
    · simp only [List.mem_singleton] at h2
      exact h2 ▸ digitChar_mem_decDigits (Nat.mod_lt _ (by omega))

lemma natRender_ne_nil (n : Nat) : natRender n ≠ [] := by
  induction n using natRender.induct with
  | case1 n h => rw [natRender, dif_pos h]; simp
  | case2 n h ih => rw [natRender, dif_neg h]; simp

lemma digitsToNat_natRender (n : Nat) : digitsToNat (natRender n) = n := by
  induction n using natRender.induct with
  | case1 n h =>
    rw [natRender, dif_pos h]
    simp only [digitsToNat, List.foldl_cons, List.foldl_nil]
    rw [Nat.mul_zero, Nat.zero_add, digitChar_val h]
  | case2 n h ih =>
    rw [natRender, dif_neg h]
    simp only [digitsToNat, List.foldl_append, List.foldl_cons, List.foldl_nil]
    simp only [digitsToNat] at ih
    rw [ih, digitChar_val (Nat.mod_lt _ (by omega))]
    omega

lemma dropWhile_eq_self_of_none {p : Char → Bool} {cs : List Char}
    (h : ∀ c ∈ cs, p c = false) : cs.dropWhile p = cs := by
  cases cs with
  | nil => rfl
  | cons a l =>
    rw [List.dropWhile_cons, h a (List.mem_cons_self a l)]
    simp

lemma stripChars_eq_self {cs : List Char}
    (h : ∀ c ∈ cs, c.isWhitespace = false) : stripChars cs = cs := by
  unfold stripChars
  rw [dropWhile_eq_self_of_none h,
    dropWhile_eq_self_of_none (fun c hc => h c (List.mem_reverse.mp hc)),
    List.reverse_reverse]

lemma contains_eq_false_of_not_mem {cs : List Char} {c : Char} (h : c ∉ cs) :
    cs.contains c = false := by
  simpa using h

lemma pyIntNat_natRender (n : Nat) : pyIntNat (natRender n) = some n := by
  have hmem := natRender_mem_decDigits n
  have hstrip : stripChars (natRender n) = natRender n :=
    stripChars_eq_self (fun c hc => (decDigits_facts c (hmem c hc)).2.1)
  obtain ⟨c, cs, hc⟩ := List.exists_cons_of_ne_nil (natRender_ne_nil n)
  have hcplus : c ≠ '+' :=
    (decDigits_facts c (hmem c (hc ▸ List.mem_cons_self c cs))).2.2.2.1
  have hall : (c :: cs).all Char.isDigit = true := by
    rw [List.all_eq_true]
    intro x hx
    exact (decDigits_facts x (hmem x (hc ▸ hx))).1
  simp only [pyIntNat]
  rw [hstrip, hc]
  simp only [List.head?_cons, Option.some.injEq, if_neg hcplus,
    List.isEmpty_cons, Bool.not_false, Bool.true_and, hall, if_true]
  rw [← hc, digitsToNat_natRender]

lemma natRender_not_contains_hyphen (n : Nat) :
    (natRender n).contains '-' = false :=
  contains_eq_false_of_not_mem
    (fun h => (decDigits_facts '-' (natRender_mem_decDigits n '-' h)).2.2.1 rfl)

lemma splitOnChar_eq_single {sep : Char} {cs : List Char}
    (h : ∀ c ∈ cs, c ≠ sep) : splitOnChar sep cs = [cs] := by
  induction cs with
  | nil => rfl
  | cons a l ih =>
    have ha : a ≠ sep := h a (List.mem_cons_self a l)
    have hl := ih (fun c hc => h c (List.mem_cons_of_mem a hc))
    simp only [splitOnChar, hl, if_neg ha]

lemma splitOnChar_append {sep : Char} {xs ys : List Char}
    (h : ∀ c ∈ xs, c ≠ sep) :
    splitOnChar sep (xs ++ sep :: ys) = xs :: splitOnChar sep ys := by
  induction xs with
  | nil => simp [splitOnChar]
  | cons a l ih =>
    have ha : a ≠ sep := h a (List.mem_cons_self a l)
    have hl := ih (fun c hc => h c (List.mem_cons_of_mem a hc))
    simp only [List.cons_append, splitOnChar, List.append_eq, hl, if_neg ha]

lemma parsePart_single (n : Nat) : parsePart (natRender n) = some {n} := by
  have hstrip : stripChars (natRender n) = natRender n :=
    stripChars_eq_self
      (fun c hc => (decDigits_facts c (natRender_mem_decDigits n c hc)).2.1)
  simp only [parsePart, hstrip, natRender_not_contains_hyphen,
    Bool.false_eq_true, if_false, pyIntNat_natRender]
  rfl

lemma parsePart_range (a b : Nat) :
    parsePart (natRender a ++ '-' :: natRender b) = some (Finset.Ico a (b + 1)) := by
  have hmem : ∀ c ∈ natRender a ++ '-' :: natRender b, c ∈ decDigits ∨ c = '-' := by
    intro c hc
    rcases List.mem_append.mp hc with h1 | h2
    · exact Or.inl (natRender_mem_decDigits a c h1)
    · rcases List.mem_cons.mp h2 with h3 | h4
      · exact Or.inr h3
      · exact Or.inl (natRender_mem_decDigits b c h4)
  have hstrip : stripChars (natRender a ++ '-' :: natRender b) =
      natRender a ++ '-' :: natRender b := by
    refine stripChars_eq_self (fun c hc => ?_)
    rcases hmem c hc with h1 | h2
    · exact (decDigits_facts c h1).2.1
    · rw [h2]; decide
  have hcontains : (natRender a ++ '-' :: natRender b).contains '-' = true := by
    simp
  have hna : ∀ c ∈ natRender a, c ≠ '-' :=
    fun c hc => (decDigits_facts c (natRender_mem_decDigits a c hc)).2.2.1
  have hnb : ∀ c ∈ natRender b, c ≠ '-' :=
    fun c hc => (decDigits_facts c (natRender_mem_decDigits b c hc)).2.2.1
  have hsplit : splitOnChar '-' (natRender a ++ '-' :: natRender b) =
      [natRender a, natRender b] := by
    rw [splitOnChar_append hna, splitOnChar_eq_single hnb]
  simp only [parsePart, hstrip, hcontains, if_true, hsplit, pyIntNat_natRender]

lemma parsePart_render (t : SpecToken) : parsePart t.render = some t.expand := by
  cases t with
  | single n => exact parsePart_single n
  | range a b =>
    show parsePart (natRender a ++ '-' :: natRender b) = some (Finset.Icc a b)
    rw [parsePart_range, Nat.Ico_succ_right]

lemma parseParts_renders (ts : List SpecToken) (acc : Finset Nat) :
    parseParts (ts.map SpecToken.render) acc =
      some (ts.foldl (fun a t => a ∪ t.expand) acc) := by
  induction ts generalizing acc with
  | nil => rfl
  | cons t rest ih =>
    simp only [List.map_cons, List.foldl_cons, parseParts, parsePart_render]
    exact ih (acc ∪ t.expand)

/-! ## Lemmas about the page-keeping loop -/

lemma keptPages_sublist {α : Type} (doc : List α) (s : Finset Nat) :
    (keptPages doc s).Sublist doc := by
  have h1 : (keptPages doc s).Sublist (doc.enum.map Prod.snd) :=
    (List.filter_sublist doc.enum).map Prod.snd
  rwa [List.enum_map_snd] at h1

lemma keptPages_empty {α : Type} (doc : List α) : keptPages doc ∅ = doc := by
  unfold keptPages
  rw [List.filter_eq_self.mpr, List.enum_map_snd]
  intro p _
  simp

lemma mem_enum_fst_lt {α : Type} {doc : List α} {p : Nat × α}
    (h : p ∈ doc.enum) : p.1 < doc.length := by
  have h1 : p.1 ∈ doc.enum.map Prod.fst := List.mem_map_of_mem Prod.fst h
  rw [List.enum_map_fst] at h1
  exact List.mem_range.mp h1

lemma keptPages_inter {α : Type} (doc : List α) (s : Finset Nat) :
    keptPages doc (s ∩ Finset.Icc 1 doc.length) = keptPages doc s := by
  unfold keptPages
  congr 1
  refine List.filter_congr (fun p hp => ?_)
  have hlt : p.1 < doc.length := mem_enum_fst_lt hp
  have hiff : p.1 + 1 ∈ s ∩ Finset.Icc 1 doc.length ↔ p.1 + 1 ∈ s := by
    simp only [Finset.mem_inter, Finset.mem_Icc]
    exact ⟨fun h => h.1, fun h => ⟨h, by omega⟩⟩
  simp [hiff]

lemma length_filter_range_mem (tot : Nat) (s : Finset Nat) :
    ((List.range tot).filter (fun i => decide (i + 1 ∈ s))).length =
      (s ∩ Finset.Icc 1 tot).card := by
  induction tot with
  | zero => simp
  | succ t ih =>
    have hIcc : Finset.Icc 1 (t + 1) = insert (t + 1) (Finset.Icc 1 t) := by
      ext x
      simp only [Finset.mem_Icc, Finset.mem_insert]
      omega
    rw [List.range_succ, List.filter_append, List.length_append, ih, hIcc]
    by_cases hmem : t + 1 ∈ s
    · have hins : s ∩ insert (t + 1) (Finset.Icc 1 t) =
          insert (t + 1) (s ∩ Finset.Icc 1 t) := by
        ext x
        simp only [Finset.mem_inter, Finset.mem_insert]
        constructor
        · rintro ⟨hx, hx2 | hx3⟩
          · exact Or.inl hx2
          · exact Or.inr ⟨hx, hx3⟩
        · rintro (rfl | ⟨hx, hx3⟩)
          · exact ⟨hmem, Or.inl rfl⟩
          · exact ⟨hx, Or.inr hx3⟩
      have hnotin : t + 1 ∉ s ∩ Finset.Icc 1 t := by
        simp only [Finset.mem_inter, Finset.mem_Icc]
        omega
      rw [hins, Finset.card_insert_of_not_mem hnotin]
      simp [hmem]
    · have hins : s ∩ insert (t + 1) (Finset.Icc 1 t) = s ∩ Finset.Icc 1 t := by
        ext x
        simp only [Finset.mem_inter, Finset.mem_insert]
        constructor
        · rintro ⟨hx, hx2 | hx3⟩
          · exact absurd (hx2 ▸ hx) hmem
          · exact ⟨hx, hx3⟩
        · rintro ⟨hx, hx3⟩
          exact ⟨hx, Or.inr hx3⟩
      rw [hins]
      simp [hmem]

lemma card_inter_Icc_le (tot : Nat) (s : Finset Nat) :
    (s ∩ Finset.Icc 1 tot).card ≤ tot := by
  calc (s ∩ Finset.Icc 1 tot).card ≤ (Finset.Icc 1 tot).card :=
        Finset.card_le_card (Finset.inter_subset_right)
    _ = tot := by rw [Nat.card_Icc]; omega

lemma length_filter_range_not_mem (tot : Nat) (s : Finset Nat) :
    ((List.range tot).filter (fun i => !(decide (i + 1 ∈ s)))).length =
      tot - (s ∩ Finset.Icc 1 tot).card := by
  have hsum : ((List.range tot).filter (fun i => decide (i + 1 ∈ s))).length +
      ((List.range tot).filter (fun i => !(decide (i + 1 ∈ s)))).length =
      tot := by
    rw [← List.length_eq_length_filter_add, List.length_range]
  rw [length_filter_range_mem] at hsum
  omega

lemma keptPages_length {α : Type} (doc : List α) (s : Finset Nat) :
    (keptPages doc s).length =
      doc.length - (s ∩ Finset.Icc 1 doc.length).card := by
  unfold keptPages
  rw [List.length_map, ← List.countP_eq_length_filter]
  have hpred : (fun p : Nat × α => !(decide (p.1 + 1 ∈ s))) =
      ((fun i => !(decide (i + 1 ∈ s))) ∘ Prod.fst) := rfl
  rw [hpred, ← List.countP_map, List.enum_map_fst,
    List.countP_eq_length_filter, length_filter_range_not_mem]

/-! ## Lemmas about the merge loops -/

lemma mergeLoop_all_ok {α : Type} (files : List (UploadFile α))
    (docs : List (List α)) (acc : List α) (reads : List String)
    (hnames : ∀ f ∈ files, lowerEndsWithPdf f.filename = true)
    (hdocs : files.map UploadFile.content = docs.map some) :
    mergeLoop files acc reads =
      (.ok (acc ++ docs.flatten), reads ++ files.map UploadFile.filename) := by
  induction files generalizing docs acc reads with
  | nil =>
    cases docs with
    | nil => simp [mergeLoop]
    | cons d ds => simp at hdocs
  | cons f fs ih =>
    cases docs with
    | nil => simp at hdocs
    | cons d ds =>
      simp only [List.map_cons, List.cons.injEq] at hdocs
      obtain ⟨hfd, hrest⟩ := hdocs
      have hname := hnames f (List.mem_cons_self f fs)
      simp only [mergeLoop, hname, if_true, hfd]
      rw [ih ds _ _ (fun g hg => hnames g (List.mem_cons_of_mem f hg)) hrest]
      simp [List.append_assoc]

lemma mergeLoop_complete {α : Type} (files : List (UploadFile α))
    (acc : List α) (reads : List String) :
    (∃ docs : List (List α), files.map UploadFile.content = docs.map some ∧
      (mergeLoop files acc reads).1 = .ok (acc ++ docs.flatten)) ∨
    (∃ e, (mergeLoop files acc reads).1 = .error e) := by
  induction files generalizing acc reads with
  | nil => exact Or.inl ⟨[], by simp [mergeLoop]⟩
  | cons f fs ih =>
    by_cases hname : lowerEndsWithPdf f.filename = true
    · cases hc : f.content with
      | none =>
        exact Or.inr ⟨⟨500, .processingError⟩, by simp [mergeLoop, hname, hc]⟩
      | some d =>
        rcases ih (acc ++ d) (reads ++ [f.filename]) with ⟨ds, hds, hok⟩ | ⟨e, he⟩
        · refine Or.inl ⟨d :: ds, by simp [hc, hds], ?_⟩
          simp only [mergeLoop, hname, if_true, hc]
          rw [hok]
          simp [List.append_assoc]
        · exact Or.inr ⟨e, by simp only [mergeLoop, hname, if_true, hc]; exact he⟩
    · rw [Bool.not_eq_true] at hname
      exact Or.inr ⟨⟨500, .wrappedException (.fileIsNotAPdf f.filename)⟩,
        by simp [mergeLoop, hname]⟩

lemma cliMergeRead_all_ok {α : Type} (files : List (CliFile α))
    (docs : List (List α)) (acc : List α)
    (hdocs : files.map CliFile.content = docs.map some) :
    cliMergeRead files acc = .ok (acc ++ docs.flatten) := by
  induction files generalizing docs acc with
  | nil =>
    cases docs with
    | nil => simp [cliMergeRead]
    | cons d ds => simp at hdocs
  | cons f fs ih =>
    cases docs with
    | nil => simp at hdocs
    | cons d ds =>
      simp only [List.map_cons, List.cons.injEq] at hdocs
      obtain ⟨hfd, hrest⟩ := hdocs
      simp only [cliMergeRead, hfd]
      rw [ih ds _ hrest]
      simp [List.append_assoc]

lemma cliMergeRead_complete {α : Type} (files : List (CliFile α)) (acc : List α) :
    (∃ docs : List (List α), files.map CliFile.content = docs.map some ∧
      cliMergeRead files acc = .ok (acc ++ docs.flatten)) ∨
    cliMergeRead files acc = .error (.wrapped .processingError) := by
  induction files generalizing acc with
  | nil => exact Or.inl ⟨[], by simp [cliMergeRead]⟩
  | cons f fs ih =>
    cases hc : f.content with
    | none => exact Or.inr (by simp [cliMergeRead, hc])
    | some d =>
      rcases ih (acc ++ d) with ⟨ds, hds, hok⟩ | he
      · refine Or.inl ⟨d :: ds, by simp [hc, hds], ?_⟩
        simp only [cliMergeRead, hc]
        rw [hok]
        simp [List.append_assoc]
      · exact Or.inr (by simp only [cliMergeRead, hc]; exact he)

lemma validateMergeInputs_none {α : Type} (files : List (CliFile α))
    (h : ∀ f ∈ files, f.existsOnDisk = true ∧ lowerEndsWithPdf f.path = true) :
    validateMergeInputs files = none := by
  induction files with
  | nil => rfl
  | cons f fs ih =>
    obtain ⟨h1, h2⟩ := h f (List.mem_cons_self f fs)
    simp only [validateMergeInputs, h1, h2]
    exact ih (fun g hg => h g (List.mem_cons_of_mem f hg))

/-! ## Lemmas about the suffix checks -/

lemma cs_check_false_of_upper {name : String}
    (h : (['.', 'P', 'D', 'F'] : List Char).isSuffixOf name.data = true) :
    csEndsWithPdf name = false := by
  rw [csEndsWithPdf]
  by_contra hc
  rw [Bool.not_eq_false, List.isSuffixOf_iff_suffix] at hc
  rw [List.isSuffixOf_iff_suffix] at h
  obtain ⟨t1, h1⟩ := h
  obtain ⟨t2, h2⟩ := hc
  have heq : (['.', 'P', 'D', 'F'] : List Char) = pdfSuffixChars :=
    (List.append_inj' (h1.trans h2.symm) (by decide)).2
  exact absurd heq (by decide)

lemma lower_check_true_of_upper {name : String}
    (h : (['.', 'P', 'D', 'F'] : List Char).isSuffixOf name.data = true) :
    lowerEndsWithPdf name = true := by
  rw [lowerEndsWithPdf, List.isSuffixOf_iff_suffix]
  rw [List.isSuffixOf_iff_suffix] at h
  obtain ⟨t, ht⟩ := h
  refine ⟨t.map Char.toLower, ?_⟩
  have hmap : (['.', 'P', 'D', 'F'] : List Char).map Char.toLower =
      pdfSuffixChars := by decide
  rw [← hmap, ← List.map_append, ht]

/-! ## Additional small helpers for concrete witnesses -/

lemma natRender_digit (n : Nat) (h : n < 10) : natRender n = [Nat.digitChar n] := by
  rw [natRender, dif_pos h]

/-! ## The claims -/

/-- C1: for every valid non-empty page spec string composed of
comma-separated single positive integers and hyphenated ranges (its
comma-split being the rendered token list), parsing returns exactly the
expanded set of 1-based indices - each single token contributes its
integer, each range token start-end contributes every integer from start
to end inclusive - with duplicates collapsed by set union. -/
theorem c1_parse_valid_spec (pages : String) (ts : List SpecToken)
    (hne : ts ≠ [])
    (hsplit : splitOnChar ',' pages.data = ts.map SpecToken.render)
    (hvalid : ∀ t ∈ ts, t.Valid) :
    parsePages pages = some (expandSpec ts) := by
  unfold parsePages expandSpec
  rw [hsplit, parseParts_renders]

/-- C1 witness: parsing "1,3-5,7" yields exactly the set 1,3,4,5,7. -/
theorem c1_parse_valid_spec_witness :
    parsePages "1,3-5,7" = some ({1, 3, 4, 5, 7} : Finset Nat) := by
  have h := c1_parse_valid_spec "1,3-5,7"
      [.single 1, .range 3 5, .single 7]
      (by simp)
      (by
        simp only [List.map_cons, List.map_nil, SpecToken.render,
          natRender_digit 1 (by omega), natRender_digit 3 (by omega),
          natRender_digit 5 (by omega), natRender_digit 7 (by omega)]
        decide)
      (by
        intro t ht
        simp only [List.mem_cons, List.not_mem_nil, or_false] at ht
        rcases ht with rfl | rfl | rfl
        · exact Nat.le_refl 1
        · exact ⟨by omega, by omega⟩
        · exact (by omega : (1 : Nat) ≤ 7))
  rw [h]
  decide

/-- C2: for every document of T pages and every page spec that parses to
index set S, the HTTP delete-pages operation succeeds and produces the
document of kept pages: it has exactly T - card (S ∩ [1,T]) pages, is a
sublist of the original (original relative order), and indices outside
[1,T] are silently ignored (replacing S by S ∩ [1,T] changes nothing). -/
theorem c2_http_delete_pages (α : Type) (f : UploadFile α) (doc : List α)
    (pages : String) (s : Finset Nat)
    (hname : lowerEndsWithPdf f.filename = true)
    (hcontent : f.content = some doc)
    (hparse : parsePages pages = some s) :
    httpDeletePages f pages = .ok (keptPages doc s) ∧
    (keptPages doc s).length =
      doc.length - (s ∩ Finset.Icc 1 doc.length).card ∧
    (keptPages doc s).Sublist doc ∧
    keptPages doc s = keptPages doc (s ∩ Finset.Icc 1 doc.length) := by
  have hnonempty : pages ≠ "" := by
    intro h
    rw [h] at hparse
    have hnone : parsePages "" = none := by decide
    rw [hnone] at hparse
    exact Option.noConfusion hparse
  refine ⟨?_, keptPages_length doc s, keptPages_sublist doc s,
    (keptPages_inter doc s).symm⟩
  simp only [httpDeletePages, hname, Bool.true_eq_false, if_false,
    if_neg hnonempty, hparse, hcontent]

/-- C2 witness: deleting page 2 of a 3-page document through the endpoint. -/
theorem c2_http_delete_pages_witness :
    lowerEndsWithPdf "test.pdf" = true ∧
    parsePages "2" = some ({2} : Finset Nat) ∧
    httpDeletePages (α := Nat) ⟨"test.pdf", some [10, 20, 30]⟩ "2" =
      .ok (keptPages [10, 20, 30] ({2} : Finset Nat)) ∧
    keptPages [10, 20, 30] ({2} : Finset Nat) = [10, 30] :=
  ⟨by decide, by decide,
    (c2_http_delete_pages Nat ⟨"test.pdf", some [10, 20, 30]⟩ [10, 20, 30]
      "2" {2} (by decide) rfl (by decide)).1,
    by decide⟩

/-- C3: merging N documents (N at least 2, all names passing the suffix
check, all bytes decoding) succeeds on both surfaces and produces the
concatenation of all pages in source order then page order, whose length
is the sum of the page counts; no page is dropped, duplicated or
reordered. -/
theorem c3_merge (α : Type) (files : List (UploadFile α))
    (cfiles : List (CliFile α)) (docs : List (List α)) (out : Option String)
    (hlen : 2 ≤ files.length)
    (hdocs : files.map UploadFile.content = docs.map some)
    (hnames : ∀ f ∈ files, lowerEndsWithPdf f.filename = true)
    (hclen : 2 ≤ cfiles.length)
    (hcdocs : cfiles.map CliFile.content = docs.map some)
    (hcvalid : ∀ f ∈ cfiles,
      f.existsOnDisk = true ∧ lowerEndsWithPdf f.path = true) :
    (httpMerge files).1 = .ok docs.flatten ∧
    cliMerge cfiles out = .ok (out.getD "merged.pdf", docs.flatten) ∧
    docs.flatten.length = (docs.map List.length).sum := by
  refine ⟨?_, ?_, List.length_flatten docs⟩
  · unfold httpMerge
    rw [if_neg (by omega), mergeLoop_all_ok files docs [] [] hnames hdocs]
    simp
  · unfold cliMerge
    rw [if_neg (by omega), validateMergeInputs_none cfiles hcvalid,
      cliMergeRead_all_ok cfiles docs [] hcdocs]
    simp only [List.nil_append]
    rfl

/-- C3 witness: merging a 1-page and a 2-page document on both surfaces. -/
theorem c3_merge_witness :
    (httpMerge (α := Nat) [⟨"a.pdf", some [1]⟩, ⟨"b.pdf", some [2, 3]⟩]).1 =
      .ok ([[1], [2, 3]] : List (List Nat)).flatten ∧
    cliMerge (α := Nat)
      [⟨"a.pdf", true, some [1]⟩, ⟨"b.pdf", true, some [2, 3]⟩] none =
      .ok ((none : Option String).getD "merged.pdf",
        ([[1], [2, 3]] : List (List Nat)).flatten) ∧
    ([[1], [2, 3]] : List (List Nat)).flatten.length =
      (([[1], [2, 3]] : List (List Nat)).map List.length).sum :=
  c3_merge Nat [⟨"a.pdf", some [1]⟩, ⟨"b.pdf", some [2, 3]⟩]
    [⟨"a.pdf", true, some [1]⟩, ⟨"b.pdf", true, some [2, 3]⟩]
    [[1], [2, 3]] none (by decide) rfl (by decide) (by decide) rfl (by decide)

/-- C4: the failing input for the merge filename check.  The claim (and
the repository's own test `test_merge_pdfs_non_pdf_file`) expects a 400
naming the offending file, but the `HTTPException(400, ...)` is raised
inside the `try` block whose blanket `except Exception` catches it
(`HTTPException` subclasses `Exception`) and re-raises it as a 500.  The
part of the claim about reading no later input does hold: only the first
file's bytes are read. -/
theorem c4_merge_nonpdf_gives_500 :
    httpMerge (α := Nat) [⟨"test1.pdf", some [0]⟩, ⟨"test2.txt", some []⟩] =
      (.error ⟨500, .wrappedException (.fileIsNotAPdf "test2.txt")⟩,
        ["test1.pdf"]) := rfl

lemma invalidList_ne_nil {s : Finset Nat} {tot p : Nat}
    (hp : p ∈ s) (hr : p < 1 ∨ tot < p) : invalidList s tot ≠ [] := by
  intro h0
  have hmem : p ∈ s.filter (fun q => q < 1 ∨ tot < q) :=
    Finset.mem_filter.mpr ⟨hp, hr⟩
  have hin : p ∈ invalidList s tot := by
    unfold invalidList
    rw [Finset.mem_sort]
    exact hmem
  rw [h0] at hin
  exact List.not_mem_nil p hin

/-- C5: a CLI delete whose parsed spec contains an index outside
[1, totalPages] fails - exit code 1 with a printed error whose message
carries exactly the out-of-range indices and the total - and writes no
output document. -/
theorem c5_cli_delete_out_of_range (α : Type) (f : CliFile α) (doc : List α)
    (pages : String) (s : Finset Nat) (out : Option String)
    (hex : f.existsOnDisk = true)
    (hname : lowerEndsWithPdf f.path = true)
    (hcontent : f.content = some doc)
    (hparse : parsePages pages = some s)
    (hbad : ∃ p ∈ s, p < 1 ∨ doc.length < p) :
    cliDeleteCmd f pages out =
      ⟨1, some (.wrapped (.invalidPageNumbers
        (invalidList s doc.length) doc.length)), []⟩ ∧
    (invalidList s doc.length).toFinset =
      s.filter (fun p => p < 1 ∨ doc.length < p) ∧
    invalidList s doc.length ≠ [] := by
  obtain ⟨p, hp, hrange⟩ := hbad
  have hne : invalidList s doc.length ≠ [] := invalidList_ne_nil hp hrange
  refine ⟨?_, Finset.sort_toFinset _ _, hne⟩
  have hdel : cliDeletePages f pages out =
      .error (.wrapped (.invalidPageNumbers
        (invalidList s doc.length) doc.length)) := by
    simp only [cliDeletePages, hex, hname, Bool.true_eq_false, if_false,
      hparse, hcontent, if_neg hne]
  simp only [cliDeleteCmd, hdel]

/-- C5 witness: deleting page 5 of a 3-page document fails with exit code
1, an error listing exactly index 5, and nothing written. -/
theorem c5_cli_delete_out_of_range_witness :
    cliDeleteCmd (α := Nat) ⟨"doc.pdf", true, some [7, 8, 9]⟩ "5"
        (some "out.pdf") =
      ⟨1, some (.wrapped (.invalidPageNumbers (invalidList {5} 3) 3)), []⟩ ∧
    invalidList ({5} : Finset Nat) 3 = [5] :=
  ⟨(c5_cli_delete_out_of_range Nat ⟨"doc.pdf", true, some [7, 8, 9]⟩
      [7, 8, 9] "5" {5} (some "out.pdf") rfl (by decide) rfl (by decide)
      ⟨5, by decide, by decide⟩).1,
    by
      have hf : ({5} : Finset Nat).filter (fun p => p < 1 ∨ 3 < p) = {5} := by
        decide
      unfold invalidList
      rw [hf]
      exact Finset.sort_singleton (r := (· ≤ ·)) 5⟩

lemma foldl_union_of_all_empty (ts : List SpecToken) (acc : Finset Nat)
    (hall : ∀ t ∈ ts, t.expand = ∅) :
    ts.foldl (fun a t => a ∪ t.expand) acc = acc := by
  induction ts generalizing acc with
  | nil => rfl
  | cons t rest ih =>
    rw [List.foldl_cons, hall t (List.mem_cons_self t rest),
      Finset.union_empty]
    exact ih acc (fun u hu => hall u (List.mem_cons_of_mem t hu))

/-- C6: a spec made only of range tokens with start greater than end
parses without error to the empty set - each such token contributes
nothing - and the downstream HTTP deletion removes no pages. -/
theorem c6_reversed_ranges (α : Type) (pages : String) (ts : List SpecToken)
    (f : UploadFile α) (doc : List α)
    (hsplit : splitOnChar ',' pages.data = ts.map SpecToken.render)
    (hne : ts ≠ [])
    (hall : ∀ t ∈ ts, ∃ a b, t = .range a b ∧ b < a)
    (hname : lowerEndsWithPdf f.filename = true)
    (hcontent : f.content = some doc) :
    parsePages pages = some ∅ ∧ httpDeletePages f pages = .ok doc := by
  have hexp : ∀ t ∈ ts, t.expand = ∅ := by
    intro t ht
    obtain ⟨a, b, rfl, hba⟩ := hall t ht
    show Finset.Icc a b = ∅
    exact Finset.Icc_eq_empty (by omega)
  have hparse : parsePages pages = some ∅ := by
    unfold parsePages
    rw [hsplit, parseParts_renders]
    rw [foldl_union_of_all_empty ts ∅ hexp]
  have hpne : pages ≠ "" := by
    intro h
    rw [h] at hsplit
    have h1 : ts.map SpecToken.render = [[]] := by
      rw [← hsplit]
      rfl
    cases ts with
    | nil => exact hne rfl
    | cons t rest =>
      obtain ⟨a, b, rfl, hba⟩ := hall t (List.mem_cons_self t rest)
      rw [List.map_cons] at h1
      have h2 : SpecToken.render (.range a b) = [] :=
        (List.cons_eq_cons.mp h1).1
      simp [SpecToken.render] at h2
  refine ⟨hparse, ?_⟩
  have h0 : httpDeletePages f pages = .ok (keptPages doc ∅) := by
    simp only [httpDeletePages, hname, Bool.true_eq_false, if_false,
      if_neg hpne, hparse, hcontent]
  rw [h0, keptPages_empty]

/-- C6 witness: the spec "5-3" parses to the empty set and deleting it
from a 2-page document returns the document unchanged. -/
theorem c6_reversed_ranges_witness :
    parsePages "5-3" = some (∅ : Finset Nat) ∧
    httpDeletePages (α := Nat) ⟨"d.pdf", some [1, 2]⟩ "5-3" = .ok [1, 2] :=
  c6_reversed_ranges Nat "5-3" [.range 5 3] ⟨"d.pdf", some [1, 2]⟩ [1, 2]
    (by
      simp only [List.map_cons, List.map_nil, SpecToken.render,
        natRender_digit 5 (by omega), natRender_digit 3 (by omega)]
      decide)
    (by simp)
    (by
      intro t ht
      simp only [List.mem_cons, List.not_mem_nil, or_false] at ht
      exact ⟨5, 3, ht, by omega⟩)
    (by decide) rfl

/-- C7 counterexample: a CLI delete invocation with the empty page spec
does not fail before parsing - the empty string reaches the parsing loop
and the failure is the wrapped parse error produced there (the CLI
`delete_pages` has no empty-spec pre-check), contradicting the claim
that every delete-pages invocation with an empty spec fails before any
parsing. -/
theorem c7_cli_empty_spec_is_parse_error :
    cliDeleteCmd (α := Nat) ⟨"a.pdf", true, some [0]⟩ "" none =
      ⟨1, some (.wrapped .parseFailure), []⟩ := rfl

/-- C7 amended: with the empty page spec, the HTTP surface fails before
parsing and before reading the document - 400 "Pages parameter is
required", independent of the uploaded bytes - while the CLI surface has
no such pre-check: the empty spec reaches the parser and the command
fails with the wrapped parse error, exit code 1 and nothing written, so
on both surfaces no document is processed and no output is produced. -/
theorem c7_empty_spec (α : Type) (f : UploadFile α) (cf : CliFile α)
    (out : Option String)
    (hname : lowerEndsWithPdf f.filename = true)
    (hcex : cf.existsOnDisk = true)
    (hcname : lowerEndsWithPdf cf.path = true) :
    httpDeletePages f "" = .error ⟨400, .pagesParameterRequired⟩ ∧
    cliDeleteCmd cf "" out = ⟨1, some (.wrapped .parseFailure), []⟩ := by
  constructor
  · simp only [httpDeletePages, hname, Bool.true_eq_false, if_false,
      if_pos rfl, if_true]
  · have hpn : parsePages "" = none := by decide
    have hdel : cliDeletePages cf "" out = .error (.wrapped .parseFailure) := by
      simp only [cliDeletePages, hcex, hcname, Bool.true_eq_false, if_false,
        hpn]
    simp only [cliDeleteCmd, hdel]

/-- C7 witness: the amended statement at a concrete file on each surface,
with undecodable bytes on the HTTP side to show the check precedes any
document processing. -/
theorem c7_empty_spec_witness :
    httpDeletePages (α := Nat) ⟨"x.pdf", none⟩ "" =
      .error ⟨400, .pagesParameterRequired⟩ ∧
    cliDeleteCmd (α := Nat) ⟨"x.pdf", true, some [4]⟩ "" none =
      ⟨1, some (.wrapped .parseFailure), []⟩ :=
  c7_empty_spec Nat ⟨"x.pdf", none⟩ ⟨"x.pdf", true, some [4]⟩ none
    (by decide) rfl (by decide)

/-- C9 counterexample: with a 1-page document the input "5" parses
successfully to the set containing only 5, the interactive guard refuses
it (re-prompts), yet the requested deletion set would not remove every
page - index 1 is not in it - so the guard is not exactly the
"would remove every page" condition. -/
theorem c9_guard_counterexample :
    parsePages "5" = some ({5} : Finset Nat) ∧
    interactiveDeleteStep 1 "5" = .reprompt ∧
    ¬ RemovesEveryPage {5} 1 := by
  refine ⟨by decide, by decide, ?_⟩
  unfold RemovesEveryPage
  decide

/-- C9 amended: the interactive guard refuses a successfully parsed
request exactly when the parsed set's size is at least the page count;
only for sets of valid in-range indices does this coincide with removing
every page (out-of-range sets of sufficient size are also refused). -/
theorem c9_guard_refusal (total : Nat) (input : String) (s : Finset Nat)
    (hne : stripChars input.data ≠ [])
    (hparse : parseParts (splitOnChar ',' (stripChars input.data)) ∅ = some s) :
    (interactiveDeleteStep total input = .reprompt ↔ total ≤ s.card) ∧
    (s ⊆ Finset.Icc 1 total →
      (interactiveDeleteStep total input = .reprompt ↔
        RemovesEveryPage s total)) := by
  have hstep : interactiveDeleteStep total input =
      if total ≤ s.card then .reprompt else .proceed s := by
    simp only [interactiveDeleteStep, if_neg hne, hparse]
  have hiff : interactiveDeleteStep total input = .reprompt ↔ total ≤ s.card := by
    rw [hstep]
    constructor
    · intro h
      by_contra hc
      rw [if_neg hc] at h
      exact InteractiveAction.noConfusion h
    · intro h
      rw [if_pos h]
  refine ⟨hiff, fun hsub => ?_⟩
  rw [hiff]
  have hcard : s.card ≤ total := by
    calc s.card ≤ (Finset.Icc 1 total).card := Finset.card_le_card hsub
      _ = total := by rw [Nat.card_Icc]; omega
  constructor
  · intro hle
    have heq : s = Finset.Icc 1 total :=
      Finset.eq_of_subset_of_card_le hsub (by rw [Nat.card_Icc]; omega)
    show Finset.Icc 1 total ⊆ s
    rw [heq]
  · intro hrem
    have heq : s = Finset.Icc 1 total := Finset.Subset.antisymm hsub hrem
    rw [heq, Nat.card_Icc]
    omega

/-- C9 witness: the amended statement at a 2-page document with input
"1,2", a parsed in-range set where refusal and remove-every-page agree. -/
theorem c9_guard_refusal_witness :
    (interactiveDeleteStep 2 "1,2" = .reprompt ↔
      2 ≤ ({1, 2} : Finset Nat).card) ∧
    (({1, 2} : Finset Nat) ⊆ Finset.Icc 1 2 →
      (interactiveDeleteStep 2 "1,2" = .reprompt ↔
        RemovesEveryPage {1, 2} 2)) :=
  c9_guard_refusal 2 "1,2" {1, 2} (by decide) (by decide)

/-- C10: for any filename carrying the upper-case suffix ".PDF", the
page-count endpoint's case-sensitive check rejects it - a 400 no matter
whether the file exists in scratch storage or decodes - while the
case-insensitive check used by the merge and delete-pages endpoints and
every CLI command accepts the very same name (shown for delete-pages,
whose gate is exactly `lowerEndsWithPdf`, as it is for merge and the
CLI). -/
theorem c10_pagecount_case_sensitive (name : String)
    (h : (['.', 'P', 'D', 'F'] : List Char).isSuffixOf name.data = true) :
    csEndsWithPdf name = false ∧
    lowerEndsWithPdf name = true ∧
    (∀ (ex : Bool) (content : Option (List Nat)),
      httpPageCount name ex content = .error ⟨400, .fileIsNotAPdfCS⟩) ∧
    (∀ doc : List Nat,
      httpDeletePages ⟨name, some doc⟩ "1" = .ok (keptPages doc {1})) := by
  have hcs := cs_check_false_of_upper h
  have hlow := lower_check_true_of_upper h
  refine ⟨hcs, hlow, ?_, ?_⟩
  · intro ex content
    simp only [httpPageCount, hcs, if_pos rfl, if_true]
  · intro doc
    have hp1 : parsePages "1" = some ({1} : Finset Nat) := by decide
    simp only [httpDeletePages, hlow, Bool.true_eq_false, if_false,
      if_neg (by decide : ¬("1" : String) = ""), hp1]

/-- C10 witness: the name "REPORT.PDF" - rejected by the page-count
check, accepted by the shared case-insensitive check, 400 from the
page-count endpoint even for an existing decodable file, success from
delete-pages. -/
theorem c10_pagecount_case_sensitive_witness :
    csEndsWithPdf "REPORT.PDF" = false ∧
    lowerEndsWithPdf "REPORT.PDF" = true ∧
    (∀ (ex : Bool) (content : Option (List Nat)),
      httpPageCount "REPORT.PDF" ex content =
        .error ⟨400, .fileIsNotAPdfCS⟩) ∧
    (∀ doc : List Nat,
      httpDeletePages ⟨"REPORT.PDF", some doc⟩ "1" =
        .ok (keptPages doc {1})) :=
  c10_pagecount_case_sensitive "REPORT.PDF" (by decide)

/-- C8: every operation on either surface is atomic - each terminating
outcome is either a success carrying exactly the one complete output
artifact (the full concatenation for merge, the full kept-pages document
for delete, the exact count for page-count; for the CLI, exactly one
written file) or an error carrying no output artifact at all; no partial
result is ever returned. -/
theorem c8_atomicity (α : Type) :
    (∀ files : List (UploadFile α),
      (∃ docs : List (List α), files.map UploadFile.content = docs.map some ∧
        (httpMerge files).1 = .ok docs.flatten) ∨
      (∃ e, (httpMerge files).1 = .error e)) ∧
    (∀ (f : UploadFile α) (pages : String),
      (∃ doc s, f.content = some doc ∧ parsePages pages = some s ∧
        httpDeletePages f pages = .ok (keptPages doc s)) ∨
      (∃ e, httpDeletePages f pages = .error e)) ∧
    (∀ (name : String) (ex : Bool) (content : Option (List α)),
      (∃ doc, content = some doc ∧
        httpPageCount name ex content = .ok doc.length) ∨
      (∃ e, httpPageCount name ex content = .error e)) ∧
    (∀ (cfiles : List (CliFile α)) (out : Option String),
      (∃ docs : List (List α), cfiles.map CliFile.content = docs.map some ∧
        cliMergeCmd cfiles out =
          ⟨0, none, [(out.getD "merged.pdf", docs.flatten)]⟩) ∨
      (∃ e, cliMergeCmd cfiles out = ⟨1, some e, []⟩)) ∧
    (∀ (cf : CliFile α) (pages : String) (out : Option String),
      (∃ doc s, cf.content = some doc ∧ parsePages pages = some s ∧
        cliDeleteCmd cf pages out =
          ⟨0, none, [(cliDeleteOut cf.path out, keptPages doc s)]⟩) ∨
      (∃ e, cliDeleteCmd cf pages out = ⟨1, some e, []⟩)) ∧
    (∀ cf : CliFile α,
      (∃ doc, cf.content = some doc ∧ cliPageCount cf = .ok doc.length) ∨
      (∃ e, cliPageCount cf = .error e)) := by
  refine ⟨?_, ?_, ?_, ?_, ?_, ?_⟩
  · -- POST /merge
    intro files
    by_cases hlen : files.length < 2
    · exact Or.inr ⟨⟨400, .atLeastTwoFilesRequired⟩,
        by simp [httpMerge, hlen]⟩
    · rcases mergeLoop_complete files [] [] with ⟨docs, hdocs, hok⟩ | ⟨e, he⟩
      · refine Or.inl ⟨docs, hdocs, ?_⟩
        rw [httpMerge, if_neg hlen]
        rw [List.nil_append] at hok
        exact hok
      · refine Or.inr ⟨e, ?_⟩
        rw [httpMerge, if_neg hlen]
        exact he
  · -- POST /delete-pages
    intro f pages
    cases hval : lowerEndsWithPdf f.filename with
    | false =>
      exact Or.inr ⟨⟨400, .fileMustBeAPdf⟩,
        by simp [httpDeletePages, hval]⟩
    | true =>
      by_cases hpe : pages = ""
      · exact Or.inr ⟨⟨400, .pagesParameterRequired⟩,
          by simp [httpDeletePages, hval, hpe]⟩
      · cases hp : parsePages pages with
        | none =>
          exact Or.inr ⟨⟨400, .invalidPageRangeFormat⟩,
            by simp [httpDeletePages, hval, hpe, hp]⟩
        | some s =>
          cases hc : f.content with
          | none =>
            exact Or.inr ⟨⟨500, .processingError⟩,
              by simp [httpDeletePages, hval, hpe, hp, hc]⟩
          | some doc =>
            exact Or.inl ⟨doc, s, rfl, rfl,
              by simp [httpDeletePages, hval, hpe, hp, hc]⟩
  · -- GET /page-count
    intro name ex content
    cases hval : csEndsWithPdf name with
    | false =>
      exact Or.inr ⟨⟨400, .fileIsNotAPdfCS⟩, by simp [httpPageCount, hval]⟩
    | true =>
      cases hex : ex with
      | false =>
        exact Or.inr ⟨⟨404, .fileNotFound⟩, by simp [httpPageCount, hval]⟩
      | true =>
        cases hc : content with
        | none =>
          exact Or.inr ⟨⟨500, .unhandledServerError⟩,
            by simp [httpPageCount, hval]⟩
        | some doc =>
          exact Or.inl ⟨doc, rfl, by simp [httpPageCount, hval]⟩
  · -- CLI merge
    intro cfiles out
    by_cases hlen : cfiles.length < 2
    · exact Or.inr ⟨.atLeastTwoRequired,
        by simp [cliMergeCmd, cliMerge, hlen]⟩
    · cases hv : validateMergeInputs cfiles with
      | some e =>
        exact Or.inr ⟨e, by simp [cliMergeCmd, cliMerge, hlen, hv]⟩
      | none =>
        rcases cliMergeRead_complete cfiles [] with ⟨docs, hdocs, hok⟩ | he
        · refine Or.inl ⟨docs, hdocs, ?_⟩
          rw [List.nil_append] at hok
          simp [cliMergeCmd, cliMerge, hlen, hv, hok, Except.map]
        · exact Or.inr ⟨.wrapped .processingError,
            by simp [cliMergeCmd, cliMerge, hlen, hv, he, Except.map]⟩
  · -- CLI delete
    intro cf pages out
    cases hex : cf.existsOnDisk with
    | false =>
      exact Or.inr ⟨.fileNotFound cf.path,
        by simp [cliDeleteCmd, cliDeletePages, hex]⟩
    | true =>
      cases hval : lowerEndsWithPdf cf.path with
      | false =>
        exact Or.inr ⟨.notAPdf cf.path,
          by simp [cliDeleteCmd, cliDeletePages, hex, hval]⟩
      | true =>
        cases hp : parsePages pages with
        | none =>
          exact Or.inr ⟨.wrapped .parseFailure,
            by simp [cliDeleteCmd, cliDeletePages, hex, hval, hp]⟩
        | some s =>
          cases hc : cf.content with
          | none =>
            exact Or.inr ⟨.wrapped .processingError,
              by simp [cliDeleteCmd, cliDeletePages, hex, hval, hp, hc]⟩
          | some doc =>
            by_cases hinv : invalidList s doc.length = []
            · exact Or.inl ⟨doc, s, rfl, rfl,
                by simp [cliDeleteCmd, cliDeletePages, hex, hval, hp, hc,
                  hinv, cliDeleteOut]⟩
            · exact Or.inr ⟨.wrapped (.invalidPageNumbers
                  (invalidList s doc.length) doc.length),
                by simp [cliDeleteCmd, cliDeletePages, hex, hval, hp, hc,
                  hinv]⟩
  · -- CLI info (page count)
    intro cf
    cases hex : cf.existsOnDisk with
    | false =>
      exact Or.inr ⟨.fileNotFound cf.path, by simp [cliPageCount, hex]⟩
    | true =>
      cases hval : lowerEndsWithPdf cf.path with
      | false =>
        exact Or.inr ⟨.notAPdf cf.path, by simp [cliPageCount, hex, hval]⟩
      | true =>
        cases hc : cf.content with
        | none =>
          exact Or.inr ⟨.processingError, by simp [cliPageCount, hex, hval, hc]⟩
        | some doc =>
          exact Or.inl ⟨doc, rfl, by simp [cliPageCount, hex, hval, hc]⟩
